import Mathlib

/-!
Verification of the multi-dimensional filter store
(`svelte-multi-filter`): a shallow embedding of the two variants of the
store found in the repository, and proofs of the specified properties.

JS records (items, the dimension map, the filter state, the property
configuration) are embedded as association lists `List (String × _)`;
property access `obj[k]` is first-match lookup returning `Option`
(`none` plays the role of `undefined`), and the spread-update
`{...obj, [k]: v}` replaces the first binding in place or appends a
fresh one.  The sentinel selection `'Any'` is embedded as `none` in
`Option V`, a concrete selected value `v` as `some v`.
-/

set_option autoImplicit false

namespace MultiFilter

variable {V : Type} [DecidableEq V]
variable {α : Type}

/-- An item is a JS record: an association list from field names to
primitive values.  A missing field reads as `none` (JS `undefined`). -/
abbrev Item (V : Type) := List (String × V)

/-- JS property read `obj[k]`: value of the first binding of `k`,
`none` when the key is absent. -/
def jsGet (l : List (String × α)) (k : String) : Option α :=
  (l.find? (fun kv => kv.1 == k)).map Prod.snd

/-- JS spread-update `{...obj, [k]: a}`: replace the first binding of
`k` in place, or append the binding when `k` is absent. -/
def objSet (l : List (String × α)) (k : String) (a : α) : List (String × α) :=
  match l with
  | [] => [(k, a)]
  | (k', b) :: t => if k' == k then (k, a) :: t else (k', b) :: objSet t k a

/-- Worker for `jsSetDedup`: skip elements already seen, keeping the
first occurrence of each value. -/
def jsSetDedupAux [BEq α] (seen : List α) : List α → List α
  | [] => []
  | a :: l =>
    if seen.contains a then jsSetDedupAux seen l
    else a :: jsSetDedupAux (a :: seen) l

/-- JS `[...new Set(xs)]`: deduplicate keeping the first occurrence of
each value, preserving order. -/
def jsSetDedup [BEq α] (l : List α) : List α :=
  jsSetDedupAux [] l

/-! ## Variant 1: `src/lib/index.ts` (`createFilterStore`, naive `select`) -/

/-- One dimension of the reactive store state (`FilterDimension<T>` in
`index.ts`).  `options` is `none` when the field is absent, which
happens when `select` spreads `undefined` for an unknown dimension
name; `selected = none` embeds the sentinel `'Any'`. -/
structure FilterDimension (V : Type) where
  options : Option (List V)
  selected : Option V
deriving DecidableEq

/-- The reactive store state of `index.ts`: dimension name to
`FilterDimension`, in insertion order. -/
abbrev DimState (V : Type) := List (String × FilterDimension V)

/-- `initialDimensions` of `index.ts`: every configured dimension with
its option list and selection `'Any'`. -/
def initialDimensions (config : List (String × List V)) : DimState V :=
  config.map (fun kv => (kv.1, { options := some kv.2, selected := none }))

/-- `select` of `index.ts`:
`{...dims, [dimension]: {...dims[dimension], selected: value}}`. -/
def selectIdx (dims : DimState V) (dimension : String) (value : Option V) :
    DimState V :=
  match jsGet dims dimension with
  | some d => objSet dims dimension { d with selected := value }
  | none => objSet dims dimension { options := none, selected := value }

/-- The per-dimension test of `index.ts`:
`dim.selected === 'Any' || item[key] === dim.selected`. -/
def dimMatches (it : Item V) (k : String) (sel : Option V) : Bool :=
  sel == none || jsGet it k == sel

/-- The `filteredItems` derived store of `index.ts`: items passing
every dimension's test under the current state. -/
def filteredItemsIdx (items : List (Item V)) (dims : DimState V) :
    List (Item V) :=
  items.filter (fun it => dims.all (fun kd => dimMatches it kd.1 kd.2.selected))

/-- The `getAvailableOptions` derived store of `index.ts`: filter the
items by every *other* dimension's selection, collect the values the
target field takes on the survivors, and keep the configured options
among them.  (`config[dimension]` is read with default `[]`; the
source presumes the dimension is configured.) -/
def getAvailableOptionsIdx (items : List (Item V))
    (config : List (String × List V)) (dims : DimState V)
    (dimension : String) : List V :=
  ((jsGet config dimension).getD []).filter (fun opt =>
    (jsSetDedup
      ((items.filter (fun it =>
        ((dims.filter (fun kd => !(kd.1 == dimension))).map
          (fun kd => (kd.1, kd.2.selected))).all
          (fun ks => dimMatches it ks.1 ks.2))).map
        (fun it => jsGet it dimension))).contains (some opt))

/-- `reset` of `index.ts`: set the store back to `initialDimensions`. -/
def resetIdx (config : List (String × List V)) : DimState V :=
  initialDimensions config

/-! ## Variant 2: `MultiFilterStore.ts` (`createMultiFilterStore`,
auto-reconciling `updateProperty`) -/

/-- Configuration of one filter property (`FilterProperty<T>`). -/
structure FilterProperty (V : Type) where
  name : String
  options : List V
deriving DecidableEq

/-- The `FilterState` of `MultiFilterStore.ts`: property name to
selection, `none` embedding `'Any'`. -/
abbrev FilterState (V : Type) := List (String × Option V)

/-- `initialState`: every configured property selected `'Any'`. -/
def initialState (props : List (String × FilterProperty V)) : FilterState V :=
  props.map (fun kv => (kv.1, none))

/-- `getExistingValues`: the distinct values the field takes over the
whole item collection. -/
def getExistingValues (items : List (Item V)) (propertyName : String) :
    List (Option V) :=
  jsSetDedup (items.map (fun it => jsGet it propertyName))

/-- The per-entry test of the general branch of `getAvailableOptions`
(and of `getFilteredItems` up to the target-key exemption):
`key === propertyName || value === 'Any' || item[key] === value`. -/
def p1Matches (propertyName : String) (state : FilterState V) (it : Item V) :
    Bool :=
  state.all (fun kv =>
    kv.1 == propertyName || kv.2 == none || jsGet it kv.1 == kv.2)

/-- The general (non-shortcut) algorithm of `getAvailableOptions` in
`MultiFilterStore.ts`: filter items by every other property's
selection, and keep configured options taken by some survivor. -/
def getAvailableOptionsGeneral (items : List (Item V))
    (props : List (String × FilterProperty V)) (state : FilterState V)
    (propertyName : String) : List V :=
  match jsGet props propertyName with
  | none => []
  | some property =>
    property.options.filter (fun opt =>
      (jsSetDedup
        ((items.filter (p1Matches propertyName state)).map
          (fun it => jsGet it propertyName))).contains (some opt))

/-- `getAvailableOptions` of `MultiFilterStore.ts`, including the
`allOthersAny` shortcut branch of the source. -/
def getAvailableOptionsP1 (items : List (Item V))
    (props : List (String × FilterProperty V)) (state : FilterState V)
    (propertyName : String) : List V :=
  match jsGet props propertyName with
  | none => []
  | some property =>
    if ((state.map Prod.fst).filter (fun k => !(k == propertyName))).all
        (fun p => jsGet state p == some (none : Option V)) then
      property.options.filter (fun opt =>
        (getExistingValues items propertyName).contains (some opt))
    else
      property.options.filter (fun opt =>
        (jsSetDedup
          ((items.filter (p1Matches propertyName state)).map
            (fun it => jsGet it propertyName))).contains (some opt))

/-- `getFilteredItems`: items matching every property's current
selection (`value === 'Any' || item[key] === value`). -/
def getFilteredItemsP1 (items : List (Item V)) (state : FilterState V) :
    List (Item V) :=
  items.filter (fun it =>
    state.all (fun kv => kv.2 == none || jsGet it kv.1 == kv.2))

/-- One iteration of the reconciliation loop of `updateProperty`: for a
key other than the updated one, reset the selection to `'Any'` when it
is non-`'Any'` and absent from `getAvailableOptions(key)` — computed,
as in the source, from the *stale* pre-update state `staleState`
captured by the module-level `currentState` variable. -/
def reconcileKey (items : List (Item V))
    (props : List (String × FilterProperty V)) (staleState : FilterState V)
    (propertyName : String) (ns : FilterState V) (key : String) :
    FilterState V :=
  if key == propertyName then ns
  else
    match jsGet ns key with
    | some (some w) =>
      if (getAvailableOptionsP1 items props staleState key).contains w then ns
      else objSet ns key none
    | some none => ns
    | none => objSet ns key none

/-- `updateProperty` of `MultiFilterStore.ts`: overwrite the property,
then walk the keys of the *old* state resetting now-unavailable
selections; availability is computed from the stale pre-update state
(the `currentState` captured before `filterStore.update` runs). -/
def updatePropertyP1 (items : List (Item V))
    (props : List (String × FilterProperty V)) (state : FilterState V)
    (propertyName : String) (value : Option V) : FilterState V :=
  (state.map Prod.fst).foldl (reconcileKey items props state propertyName)
    (objSet state propertyName value)

/-- `reset` of `MultiFilterStore.ts`: back to `initialState`. -/
def resetP1 (props : List (String × FilterProperty V)) : FilterState V :=
  initialState props

/-! ## Spec-side predicates

These follow the wording of the specification, to be compared with the
source-derived computations above. -/

/-- Spec wording for membership in the filtered items: for every
dimension in the state, either that dimension's selection is `'Any'`
or the item's field named by that dimension equals the selection. -/
def specMatch (dims : DimState V) (it : Item V) : Prop :=
  ∀ kv ∈ dims, kv.2.selected = none ∨ jsGet it kv.1 = kv.2.selected

instance (dims : DimState V) (it : Item V) : Decidable (specMatch dims it) :=
  List.decidableBAll _ dims

/-- Spec wording for an available option `v` of `dimension`: at least
one item has value `v` in the target field and matches every *other*
dimension's current non-`'Any'` selection. -/
def specAvailable (items : List (Item V)) (dims : DimState V)
    (dimension : String) (v : V) : Prop :=
  ∃ it ∈ items, jsGet it dimension = some v ∧
    ∀ kv ∈ dims, kv.1 ≠ dimension → kv.2.selected ≠ none →
      jsGet it kv.1 = kv.2.selected

instance (items : List (Item V)) (dims : DimState V) (dimension : String)
    (v : V) : Decidable (specAvailable items dims dimension v) :=
  List.decidableBEx _ items

/-- The state with dimension `d`'s selection relaxed to `'Any'`,
everything else unchanged (used for the relaxation-monotonicity
property of the filtered items). -/
def relaxDim (dims : DimState V) (d : String) : DimState V :=
  dims.map (fun kd =>
    if kd.1 = d then (kd.1, { kd.2 with selected := none }) else kd)

/-! ## Concrete data from the specification's worked example -/

/-- The example item collection of the spec (§8). -/
def itemsEx : List (Item String) :=
  [[("category", "Shirt"), ("color", "Red")],
   [("category", "Pants"), ("color", "Blue")],
   [("category", "Shirt"), ("color", "Black")]]

/-- The example configuration of the spec (§8), for the
`MultiFilterStore.ts` variant. -/
def propsEx : List (String × FilterProperty String) :=
  [("category", { name := "Category", options := ["Shirt", "Pants", "Jacket"] }),
   ("color", { name := "Color", options := ["Red", "Blue", "Black"] })]

/-- The example configuration of the spec (§8), for the `index.ts`
variant. -/
def configEx : List (String × List String) :=
  [("category", ["Shirt", "Pants", "Jacket"]),
   ("color", ["Red", "Blue", "Black"])]

/-- A configuration whose option list for `d` holds a duplicate
value. -/
def dupConfig : List (String × List String) := [("d", ["Red", "Red"])]

/-- A one-item collection for the duplicate-configuration example. -/
def dupItems : List (Item String) := [[("d", "Red")]]

/-! ## Helper lemmas -/

theorem bool_eq_decide {p : Prop} [Decidable p] {b : Bool} (h : b = true ↔ p) :
    b = decide p := by
  by_cases hp : p
  · simp [hp, h.mpr hp]
  · cases hb : b
    · simp [hp]
    · exact absurd (h.mp hb) hp

theorem contains_iff {α : Type} [BEq α] [LawfulBEq α] {l : List α} {a : α} :
    l.contains a = true ↔ a ∈ l := by
  simp [List.contains_eq_any_beq, List.any_eq_true, beq_iff_eq, eq_comm]

theorem mem_jsSetDedupAux {α : Type} [BEq α] [LawfulBEq α] (l : List α) :
    ∀ (seen : List α) (a : α),
      a ∈ jsSetDedupAux seen l ↔ a ∈ l ∧ a ∉ seen := by
  induction l with
  | nil => intro seen a; simp [jsSetDedupAux]
  | cons b t ih =>
    intro seen a
    by_cases hb : seen.contains b
    · have hbmem : b ∈ seen := contains_iff.mp hb
      rw [jsSetDedupAux, if_pos hb, ih]
      simp only [List.mem_cons]
      constructor
      · rintro ⟨ha, hs⟩
        exact ⟨Or.inr ha, hs⟩
      · rintro ⟨ha | ha, hs⟩
        · exact absurd (ha ▸ hbmem) hs
        · exact ⟨ha, hs⟩
    · have hbmem : b ∉ seen := fun hm => hb (contains_iff.mpr hm)
      rw [jsSetDedupAux, if_neg hb]
      simp only [List.mem_cons, ih]
      constructor
      · rintro (rfl | ⟨ha, hs⟩)
        · exact ⟨Or.inl rfl, hbmem⟩
        · exact ⟨Or.inr ha, fun hm => hs (Or.inr hm)⟩
      · rintro ⟨rfl | ha, hs⟩
        · exact Or.inl rfl
        · by_cases hab : a = b
          · exact Or.inl hab
          · exact Or.inr ⟨ha, fun hm => hm.elim hab hs⟩

theorem mem_jsSetDedup {α : Type} [BEq α] [LawfulBEq α] {l : List α} {a : α} :
    a ∈ jsSetDedup l ↔ a ∈ l := by
  simp [jsSetDedup, mem_jsSetDedupAux]

theorem contains_jsSetDedup {α : Type} [BEq α] [LawfulBEq α] (l : List α)
    (a : α) : (jsSetDedup l).contains a = l.contains a := by
  rw [Bool.eq_iff_iff, contains_iff, contains_iff, mem_jsSetDedup]

theorem jsGet_objSet_self {α : Type} (l : List (String × α)) (k : String)
    (a : α) : jsGet (objSet l k a) k = some a := by
  induction l with
  | nil => simp [objSet, jsGet]
  | cons kv t ih =>
    obtain ⟨k1, b⟩ := kv
    by_cases h : (k1 == k) = true
    · simp [objSet, h, jsGet]
    · rw [objSet, if_neg h]
      simpa [jsGet, List.find?_cons, h] using ih

theorem jsGet_objSet_ne {α : Type} (l : List (String × α)) {k k' : String}
    (a : α) (h : k' ≠ k) : jsGet (objSet l k a) k' = jsGet l k' := by
  have hkk : (k == k') = false := by
    simp [beq_iff_eq]
    exact fun he => h he.symm
  induction l with
  | nil => simp [objSet, jsGet, hkk]
  | cons kv t ih =>
    obtain ⟨k1, b⟩ := kv
    by_cases h1 : (k1 == k) = true
    · have hk1 : k1 = k := by simpa [beq_iff_eq] using h1
      have h1k : (k1 == k') = false := by
        simp [beq_iff_eq, hk1]
        exact fun he => h he.symm
      simp [objSet, h1, jsGet, List.find?_cons, hkk, h1k]
    · rw [objSet, if_neg h1]
      by_cases h2 : (k1 == k') = true
      · simp [jsGet, List.find?_cons, h2]
      · simpa [jsGet, List.find?_cons, h2] using ih

theorem keys_objSet {α : Type} (l : List (String × α)) {k : String} {b : α}
    (a : α) (h : jsGet l k = some b) :
    (objSet l k a).map Prod.fst = l.map Prod.fst := by
  induction l with
  | nil => simp [jsGet] at h
  | cons kv t ih =>
    obtain ⟨k1, c⟩ := kv
    by_cases h1 : (k1 == k) = true
    · have hk1 : k1 = k := by simpa [beq_iff_eq] using h1
      simp [objSet, h1, hk1]
    · have h' : jsGet t k = some b := by
        simpa [jsGet, List.find?_cons, h1] using h
      rw [objSet, if_neg h1]
      simp [ih h']

theorem objSet_eq_append {α : Type} (l : List (String × α)) (k : String)
    (a : α) (h : ∀ kv ∈ l, (kv.1 == k) = false) :
    objSet l k a = l ++ [(k, a)] := by
  induction l with
  | nil => rfl
  | cons kv t ih =>
    obtain ⟨k1, c⟩ := kv
    rw [objSet, if_neg (by simp [h (k1, c) (List.mem_cons_self _ _)]),
      ih (fun kv hkv => h kv (List.mem_cons_of_mem _ hkv))]
    rfl

theorem filter_ne_objSet {α : Type} (l : List (String × α)) (k : String)
    (a : α) :
    (objSet l k a).filter (fun kv => !(kv.1 == k))
      = l.filter (fun kv => !(kv.1 == k)) := by
  induction l with
  | nil => simp [objSet]
  | cons kv t ih =>
    obtain ⟨k1, b⟩ := kv
    by_cases h : (k1 == k) = true
    · simp [objSet, h, List.filter_cons]
    · rw [objSet, if_neg h]
      simp [List.filter_cons, h, ih]

/-! ## Claims -/

/-- C1: for every item collection and Filter State, `filteredItems`
returns exactly the subsequence of `items` containing those items for
which, for every dimension in the state, either that dimension's
selection is `'Any'` or the item's field named by that dimension
equals the selection, preserving the original order. -/
theorem c1_filtered_items_exact (items : List (Item V)) (dims : DimState V) :
    filteredItemsIdx items dims
        = items.filter (fun it => decide (specMatch dims it))
      ∧ (filteredItemsIdx items dims).Sublist items := by
  refine ⟨List.filter_congr (fun it _ => ?_), List.filter_sublist _⟩
  apply bool_eq_decide
  simp [specMatch, List.all_eq_true, dimMatches, Bool.or_eq_true, beq_iff_eq]

/-- C3: evaluating the auto-reconciling variant on the specification's
own example: after `updateProperty("category", "Shirt")` followed by
`updateProperty("color", "Blue")`, the state still holds
`category = "Shirt"` (the reconciliation pass reads the stale
pre-update state, under which `"Shirt"` is still available), and the
filtered items are empty — the claimed reset to `'Any'` and the
never-zero-matches invariant both fail. -/
theorem c3_stale_reconciliation_bug :
    updatePropertyP1 itemsEx propsEx
        (updatePropertyP1 itemsEx propsEx (initialState propsEx) "category"
          (some "Shirt"))
        "color" (some "Blue")
      = [("category", some "Shirt"), ("color", some "Blue")]
      ∧ getFilteredItemsP1 itemsEx
          (updatePropertyP1 itemsEx propsEx
            (updatePropertyP1 itemsEx propsEx (initialState propsEx)
              "category" (some "Shirt"))
            "color" (some "Blue"))
        = [] := by decide

/-- C4 counterexample: `select` on the unknown dimension name
`"brand"` is not a no-op — it changes the Filter State (a fresh entry
is appended) and it changes the filtered items. -/
theorem c4_cex_not_noop :
    selectIdx (initialDimensions configEx) "brand" (some "Blue")
        ≠ initialDimensions configEx
      ∧ filteredItemsIdx itemsEx
          (selectIdx (initialDimensions configEx) "brand" (some "Blue"))
        ≠ filteredItemsIdx itemsEx (initialDimensions configEx) := by decide

/-- C4 (amended): `select` on a dimension name absent from the state
raises no error but appends a fresh entry (absent options field,
the given selection) to the Filter State, leaving every existing
dimension's entry unchanged; the filtered items are subsequently
constrained by the new entry as well. -/
theorem c4_unknown_select_appends (items : List (Item V)) (dims : DimState V)
    (name : String) (v : Option V) (h : jsGet dims name = none) :
    selectIdx dims name v
        = dims ++ [(name, { options := none, selected := v })]
      ∧ filteredItemsIdx items (selectIdx dims name v)
        = (filteredItemsIdx items dims).filter
            (fun it => dimMatches it name v) := by
  have hne : ∀ kv ∈ dims, (kv.1 == name) = false := by
    intro kv hkv
    have hfind : dims.find? (fun kv => kv.1 == name) = none := by
      rw [jsGet] at h
      exact Option.map_eq_none'.mp h
    simpa using List.find?_eq_none.mp hfind kv hkv
  have h1 : selectIdx dims name v
      = dims ++ [(name, { options := none, selected := v })] := by
    unfold selectIdx
    rw [h]
    exact objSet_eq_append dims name _ hne
  refine ⟨h1, ?_⟩
  rw [h1]
  unfold filteredItemsIdx
  rw [List.filter_filter]
  apply List.filter_congr
  intro it _
  simp [List.all_append, Bool.and_comm]

/-- C4 witness: amended statement applied to the spec's example store
and the unknown name `"brand"`. -/
theorem c4_witness :
    selectIdx (initialDimensions configEx) "brand" (some "Blue")
        = initialDimensions configEx
          ++ [("brand", { options := none, selected := some "Blue" })]
      ∧ filteredItemsIdx itemsEx
          (selectIdx (initialDimensions configEx) "brand" (some "Blue"))
        = (filteredItemsIdx itemsEx (initialDimensions configEx)).filter
            (fun it => dimMatches it "brand" (some "Blue")) :=
  c4_unknown_select_appends itemsEx (initialDimensions configEx) "brand"
    (some "Blue") (by decide)

/-- C5 counterexample: the state reached from the initial store by
`select("category", "Shirt")` then `select("color", "Blue")` holds the
non-`'Any'` selection `"Blue"` for `color`, yet `"Blue"` is not in
`color`'s own `getAvailableOptions` result. -/
theorem c5_cex_self_disabled :
    jsGet (selectIdx (selectIdx (initialDimensions configEx) "category"
        (some "Shirt")) "color" (some "Blue")) "color"
      = some { options := some ["Red", "Blue", "Black"],
               selected := some "Blue" }
      ∧ "Blue" ∉ getAvailableOptionsIdx itemsEx configEx
          (selectIdx (selectIdx (initialDimensions configEx) "category"
            (some "Shirt")) "color" (some "Blue")) "color" := by decide

/-- C5 (amended): what the code does guarantee is the mechanism of the
claim's parenthetical — availability of a dimension ignores that
dimension's own selection, so selecting any value for a dimension
never changes that dimension's own `getAvailableOptions` result. -/
theorem c5_own_selection_ignored (items : List (Item V))
    (config : List (String × List V)) (dims : DimState V) (d : String)
    (v : Option V) :
    getAvailableOptionsIdx items config (selectIdx dims d v) d
      = getAvailableOptionsIdx items config dims d := by
  have hf : (selectIdx dims d v).filter (fun kd => !(kd.1 == d))
      = dims.filter (fun kd => !(kd.1 == d)) := by
    unfold selectIdx
    cases jsGet dims d <;> exact filter_ne_objSet _ _ _
  simp only [getAvailableOptionsIdx, hf]

/-- C6 counterexample: with the configured option list
`["Red", "Red"]` for `d` and an item carrying `"Red"`,
`getAvailableOptions` returns `["Red", "Red"]`, which has duplicate
values. -/
theorem c6_cex_duplicates :
    ¬ List.Nodup (getAvailableOptionsIdx dupItems dupConfig
      (initialDimensions dupConfig) "d") := by decide

/-- C6 (amended): the `getAvailableOptions` output preserves the order
of the configured option list (it is one of its subsequences), and it
contains no duplicate values whenever the configured option list
contains none. -/
theorem c6_order_nodup (items : List (Item V))
    (config : List (String × List V)) (dims : DimState V)
    (dimension : String) (opts : List V)
    (h : jsGet config dimension = some opts) :
    (getAvailableOptionsIdx items config dims dimension).Sublist opts
      ∧ (opts.Nodup →
          (getAvailableOptionsIdx items config dims dimension).Nodup) := by
  unfold getAvailableOptionsIdx
  rw [h]
  simp only [Option.getD_some]
  exact ⟨List.filter_sublist _,
    fun hn => List.Nodup.sublist (List.filter_sublist _) hn⟩

/-- C6 witness: amended statement applied to the spec's example. -/
theorem c6_witness :
    (getAvailableOptionsIdx itemsEx configEx (initialDimensions configEx)
        "color").Sublist ["Red", "Blue", "Black"]
      ∧ ((["Red", "Blue", "Black"] : List String).Nodup →
          (getAvailableOptionsIdx itemsEx configEx
            (initialDimensions configEx) "color").Nodup) :=
  c6_order_nodup itemsEx configEx (initialDimensions configEx) "color"
    ["Red", "Blue", "Black"] (by decide)

/-- C8: for every Filter State in which every selection is `'Any'`,
`getFilteredItems` returns the full item collection in order; in
particular after `reset()` it equals the unfiltered collection. -/
theorem c8_all_any_full (items : List (Item V)) (state : FilterState V)
    (props : List (String × FilterProperty V))
    (h : ∀ kv ∈ state, kv.2 = (none : Option V)) :
    getFilteredItemsP1 items state = items
      ∧ getFilteredItemsP1 items (resetP1 props) = items := by
  constructor
  · rw [getFilteredItemsP1, List.filter_eq_self]
    intro it _
    rw [List.all_eq_true]
    intro kv hkv
    simp [h kv hkv]
  · rw [resetP1, initialState, getFilteredItemsP1, List.filter_eq_self]
    intro it _
    rw [List.all_eq_true]
    intro kv hkv
    rw [List.mem_map] at hkv
    obtain ⟨p, _, rfl⟩ := hkv
    simp

/-- C8 witness: the all-`'Any'` state of the spec's example. -/
theorem c8_witness :
    getFilteredItemsP1 itemsEx [("category", none), ("color", none)] = itemsEx
      ∧ getFilteredItemsP1 itemsEx (resetP1 propsEx) = itemsEx :=
  c8_all_any_full itemsEx [("category", none), ("color", none)] propsEx
    (by decide)

/-- C9: the naive `select` on a dimension present in the state only
overwrites that dimension's selection, keeping its options field; it
leaves every other dimension's entry (selection and options) and the
key order of the state unchanged. -/
theorem c9_select_frame {W : Type} (dims : DimState W) (d : String)
    (v : Option W) (dim0 : FilterDimension W) (h : jsGet dims d = some dim0) :
    jsGet (selectIdx dims d v) d = some { dim0 with selected := v }
      ∧ (∀ k, k ≠ d → jsGet (selectIdx dims d v) k = jsGet dims k)
      ∧ (selectIdx dims d v).map Prod.fst = dims.map Prod.fst := by
  have hsel : selectIdx dims d v
      = objSet dims d { dim0 with selected := v } := by
    unfold selectIdx
    rw [h]
  rw [hsel]
  exact ⟨jsGet_objSet_self _ _ _,
    fun k hk => jsGet_objSet_ne _ _ hk,
    keys_objSet _ _ h⟩

/-- C9 witness: selecting `"Shirt"` for `category` in the spec's
example store. -/
theorem c9_witness :
    jsGet (selectIdx (initialDimensions configEx) "category" (some "Shirt"))
        "category"
      = some { options := some ["Shirt", "Pants", "Jacket"],
               selected := some "Shirt" }
      ∧ (∀ k, k ≠ "category" →
          jsGet (selectIdx (initialDimensions configEx) "category"
            (some "Shirt")) k = jsGet (initialDimensions configEx) k)
      ∧ (selectIdx (initialDimensions configEx) "category"
          (some "Shirt")).map Prod.fst
        = (initialDimensions configEx).map Prod.fst :=
  c9_select_frame (initialDimensions configEx) "category" (some "Shirt")
    { options := some ["Shirt", "Pants", "Jacket"], selected := none }
    (by decide)

/-- C10: relaxing one dimension's selection to `'Any'` never removes
results — the filtered items under a state form a subsequence of the
filtered items under the same state with dimension `d` relaxed. -/
theorem c10_relax_grows (items : List (Item V)) (dims : DimState V)
    (d : String) :
    (filteredItemsIdx items dims).Sublist
      (filteredItemsIdx items (relaxDim dims d)) := by
  apply List.monotone_filter_right
  intro it h
  rw [List.all_eq_true] at h ⊢
  intro kd hkd
  rw [relaxDim, List.mem_map] at hkd
  obtain ⟨kv, hkv, rfl⟩ := hkd
  by_cases hd : kv.1 = d
  · simp [hd, dimMatches]
  · simpa [hd] using h kv hkv

/-- C2: for a configured target dimension, `getAvailableOptions`
returns exactly those values of the configured option list for which
at least one item has that value in the target field and matches every
other dimension's non-`'Any'` selection; the target's own selection is
ignored. -/
theorem c2_available_options_exact (items : List (Item V))
    (config : List (String × List V)) (dims : DimState V)
    (dimension : String) (opts : List V)
    (h : jsGet config dimension = some opts) :
    getAvailableOptionsIdx items config dims dimension
      = opts.filter (fun v =>
          decide (specAvailable items dims dimension v)) := by
  unfold getAvailableOptionsIdx
  rw [h]
  simp only [Option.getD_some]
  apply List.filter_congr
  intro opt _
  apply bool_eq_decide
  rw [contains_iff, mem_jsSetDedup]
  simp only [List.mem_map, List.mem_filter, List.all_eq_true, specAvailable]
  constructor
  · rintro ⟨it, ⟨hit, hall⟩, hval⟩
    refine ⟨it, hit, hval, ?_⟩
    intro kv hkv hne hsel
    have hm := hall (kv.1, kv.2.selected) ⟨kv, ⟨hkv, by simp [hne]⟩, rfl⟩
    simp only [dimMatches, Bool.or_eq_true, beq_iff_eq] at hm
    rcases hm with h1 | h1
    · exact absurd h1 hsel
    · exact h1
  · rintro ⟨it, hit, hval, hothers⟩
    refine ⟨it, ⟨hit, ?_⟩, hval⟩
    rintro ks ⟨kv, ⟨hkv, hne⟩, rfl⟩
    simp only [dimMatches, Bool.or_eq_true, beq_iff_eq]
    by_cases hsel : kv.2.selected = none
    · exact Or.inl hsel
    · exact Or.inr (hothers kv hkv (by simpa using hne) hsel)

/-- C2 witness: the spec's example with `category = "Shirt"` active,
querying `color`. -/
theorem c2_witness :
    getAvailableOptionsIdx itemsEx configEx
        (selectIdx (initialDimensions configEx) "category" (some "Shirt"))
        "color"
      = (["Red", "Blue", "Black"] : List String).filter (fun v =>
          decide (specAvailable itemsEx
            (selectIdx (initialDimensions configEx) "category"
              (some "Shirt"))
            "color" v)) :=
  c2_available_options_exact itemsEx configEx
    (selectIdx (initialDimensions configEx) "category" (some "Shirt"))
    "color" ["Red", "Blue", "Black"] (by decide)

/-- C7: when every dimension other than the target has selection
`'Any'`, the `allOthersAny` shortcut branch of the auto-reconciling
variant's `getAvailableOptions` returns the same list as the general
algorithm — the configured option list restricted, in order, to values
appearing anywhere in the item collection for that field. -/
theorem c7_shortcut_eq_general (items : List (Item V))
    (props : List (String × FilterProperty V)) (state : FilterState V)
    (propertyName : String) (property : FilterProperty V)
    (hp : jsGet props propertyName = some property)
    (hAny : ∀ kv ∈ state, kv.1 ≠ propertyName → kv.2 = (none : Option V)) :
    getAvailableOptionsP1 items props state propertyName
        = getAvailableOptionsGeneral items props state propertyName
      ∧ getAvailableOptionsP1 items props state propertyName
        = property.options.filter (fun opt =>
            (items.map (fun it => jsGet it propertyName)).contains
              (some opt)) := by
  have hAllAny : (((state.map Prod.fst).filter
      (fun k => !(k == propertyName))).all
      (fun p => jsGet state p == some (none : Option V))) = true := by
    rw [List.all_eq_true]
    intro p hp'
    rw [List.mem_filter] at hp'
    obtain ⟨hmem, hnep⟩ := hp'
    rw [List.mem_map] at hmem
    obtain ⟨kv, hkv, rfl⟩ := hmem
    have hne : kv.1 ≠ propertyName := by simpa using hnep
    rw [jsGet]
    cases hfind : state.find? (fun x => x.1 == kv.1) with
    | none =>
      exfalso
      have := List.find?_eq_none.mp hfind kv hkv
      simp at this
    | some kv2 =>
      have h1 : kv2.1 = kv.1 := by
        simpa [beq_iff_eq] using List.find?_some hfind
      have h3 : kv2.2 = none :=
        hAny kv2 (List.mem_of_find?_eq_some hfind) (h1 ▸ hne)
      simp [h3]
  have hfilter : items.filter (p1Matches propertyName state) = items := by
    rw [List.filter_eq_self]
    intro it _
    rw [p1Matches, List.all_eq_true]
    intro kv hkv
    by_cases hk : kv.1 = propertyName
    · simp [hk]
    · simp [hAny kv hkv hk]
  constructor
  · unfold getAvailableOptionsP1 getAvailableOptionsGeneral
    simp only [hp]
    rw [if_pos hAllAny]
    simp only [hfilter, getExistingValues]
  · unfold getAvailableOptionsP1
    simp only [hp]
    rw [if_pos hAllAny]
    apply List.filter_congr
    intro opt _
    simp only [getExistingValues, contains_jsSetDedup]

/-- C7 witness: the spec's example with `category = "Shirt"` active
and every other dimension `'Any'`, querying `category`. -/
theorem c7_witness :
    getAvailableOptionsP1 itemsEx propsEx
        [("category", some "Shirt"), ("color", none)] "category"
      = getAvailableOptionsGeneral itemsEx propsEx
          [("category", some "Shirt"), ("color", none)] "category"
      ∧ getAvailableOptionsP1 itemsEx propsEx
          [("category", some "Shirt"), ("color", none)] "category"
        = ({ name := "Category", options := ["Shirt", "Pants", "Jacket"] }
            : FilterProperty String).options.filter (fun opt =>
              (itemsEx.map (fun it => jsGet it "category")).contains
                (some opt)) :=
  c7_shortcut_eq_general itemsEx propsEx
    [("category", some "Shirt"), ("color", none)] "category"
    { name := "Category", options := ["Shirt", "Pants", "Jacket"] }
    (by decide) (by decide)

end MultiFilter
